import Mathlib

/-!
Verification of the connection/session lifecycle manager of the repository:
`src/mongo/transport/session.cpp` (Connection Endpoint) and
`src/mongo/transport/service_entry_point_impl.cpp` (Connection Registry and
Worker Execution Strategy), shallowly embedded in Lean.
-/

namespace MongoTransport

/-! ## Connection Endpoint: `mongo::transport::Session` (session.cpp)

A `HostAndPort` carries an optional resolved socket address (`sockAddr()`
returns a possibly-empty optional in the source); the transport layer
pointer `_tl` is modelled as an `Option Nat` (a nullable pointer naming a
transport layer). -/

structure HostAndPort where
  host : String
  port : Nat
  sockAddr : Option Nat
deriving DecidableEq, Repr

structure Session where
  sid : Nat
  remoteAddr : HostAndPort
  localAddr : HostAndPort
  tl : Option Nat
deriving DecidableEq, Repr

/-- Constructor `Session::Session(remote, local, tl)` (session.cpp:45-46):
`_id(sessionIdCounter.addAndFetch(1))`.  Takes the current value of the
process-wide counter `sessionIdCounter` — an `AtomicUInt64`, so the
increment wraps at `2 ^ 64` — and returns the constructed session together
with the counter value after the atomic increment. -/
def Session.construct (counter : Nat) (remote localA : HostAndPort)
    (tl : Option Nat) : Session × Nat :=
  let fetched := (counter + 1) % 2 ^ 64
  ({ sid := fetched, remoteAddr := remote, localAddr := localA, tl := tl }, fetched)

/-- The process-wide counter `sessionIdCounter` is initialized to zero
(session.cpp:41, `AtomicUInt64 sessionIdCounter(0)`). -/
def sessionIdCounterInit : Nat := 0

/-- Destructor `Session::~Session()` (session.cpp:48-53): if `_tl != nullptr`,
calls `_tl->end(*this)`.  Returns the list of transport layers notified that
the connection has ended (empty when detached). -/
def Session.destruct (s : Session) : List Nat :=
  match s.tl with
  | some t => [t]
  | none => []

/-- Move constructor `Session::Session(Session&&)` (session.cpp:55-62): copies
`_id`, `_remote`, `_local` and `_tl` to the destination, then sets
`other._tl = nullptr`.  Returns (destination, moved-from source). -/
def Session.moveConstruct (other : Session) : Session × Session :=
  let dest : Session :=
    { sid := other.sid, remoteAddr := other.remoteAddr,
      localAddr := other.localAddr, tl := other.tl }
  (dest, { other with tl := none })

/-- Move assignment `Session::operator=(Session&&)` (session.cpp:64-72),
embedded exactly as written: `_id = other._id; _remote = ...; _local = ...;
_tl = other._tl; _tl = nullptr;` — note that the second store assigns
`nullptr` to the destination member `_tl` again (the source member
`other._tl` is never cleared).  Returns (destination, moved-from source). -/
def Session.moveAssign (dest other : Session) : Session × Session :=
  let dest1 : Session :=
    { dest with sid := other.sid, remoteAddr := other.remoteAddr,
                localAddr := other.localAddr, tl := other.tl }
  let dest2 : Session := { dest1 with tl := none }
  (dest2, other)

/-- Accessor `Session::id()` (session.cpp:74-76). -/
def Session.id (s : Session) : Nat := s.sid

/-- A pair of concrete sessions used to evaluate the move operations: a
destination with no transport layer and a source attached to transport
layer 0. -/
def someAddr : HostAndPort := { host := "127.0.0.1", port := 27017, sockAddr := some 0 }

def attachedSource : Session :=
  { sid := 7, remoteAddr := someAddr, localAddr := someAddr, tl := some 0 }

def plainDest : Session :=
  { sid := 9, remoteAddr := someAddr, localAddr := someAddr, tl := none }

/-- C1.  The claim states that a move operation — move-construction and
move-assignment alike — leaves the destination holding the original
transport-layer reference and the source holding none.  Move-construction
does (first conjunct), but move-assignment does not: evaluated on a source
attached to transport layer 0, the destination ends up with no
transport-layer reference while the source still holds the original one
(second and third conjuncts), because `operator=` assigns `_tl = nullptr`
to the destination instead of clearing `other._tl`. -/
theorem moveAssign_clears_dest_not_source :
    (Session.moveConstruct attachedSource).1.tl = some 0
      ∧ (Session.moveConstruct attachedSource).2.tl = none
      ∧ (Session.moveAssign plainDest attachedSource).1.tl = none
      ∧ (Session.moveAssign plainDest attachedSource).2.tl = some 0 := by
  refine ⟨rfl, rfl, rfl, rfl⟩

/-- C2.  The claim states that destroying a moved-from Session triggers no
transport-layer notification and that the single notification fires from the
final move destination.  After a move-assignment from a session attached to
transport layer 0, destroying the moved-from source notifies transport
layer 0, and destroying the destination notifies nobody — the exact opposite
of the claim (though still exactly one notification in total). -/
theorem movedFrom_destruct_notifies :
    (Session.moveAssign plainDest attachedSource).2.destruct = [0]
      ∧ (Session.moveAssign plainDest attachedSource).1.destruct = []
      ∧ (Session.moveConstruct attachedSource).2.destruct = [] := by
  refine ⟨rfl, rfl, rfl⟩

/-! ## C5: session identifiers -/

/-- Constructing a sequence of sessions, threading the process-wide
`sessionIdCounter` through the atomic increments in construction order
(the atomic `addAndFetch` linearizes concurrent constructions into such a
sequence). -/
def constructAll (counter : Nat) :
    List (HostAndPort × HostAndPort × Option Nat) → List Session
  | [] => []
  | (r, l, t) :: rest =>
    let p := Session.construct counter r l t
    p.1 :: constructAll p.2 rest

theorem map_mod_range' (a b n : Nat) (hab : a % 2 ^ 64 = b % 2 ^ 64) :
    (List.range' a n).map (fun x => x % 2 ^ 64)
      = (List.range' b n).map (fun x => x % 2 ^ 64) := by
  induction n generalizing a b with
  | zero => rfl
  | succ m ih =>
    have hab1 : (a + 1) % 2 ^ 64 = (b + 1) % 2 ^ 64 := by
      rw [Nat.add_mod a 1, hab, ← Nat.add_mod]
    rw [List.range'_succ, List.range'_succ, List.map_cons, List.map_cons,
        ih (a + 1) (b + 1) hab1]
    congr 1

theorem constructAll_ids (counter : Nat)
    (args : List (HostAndPort × HostAndPort × Option Nat)) :
    (constructAll counter args).map Session.id
      = (List.range' (counter + 1) args.length).map (fun x => x % 2 ^ 64) := by
  induction args generalizing counter with
  | nil => rfl
  | cons a rest ih =>
    obtain ⟨r, l, t⟩ := a
    show ((counter + 1) % 2 ^ 64)
        :: (constructAll ((counter + 1) % 2 ^ 64) rest).map Session.id
      = (List.range' (counter + 1) (rest.length + 1)).map (fun x => x % 2 ^ 64)
    rw [ih, List.range'_succ, List.map_cons,
        map_mod_range' ((counter + 1) % 2 ^ 64 + 1) (counter + 1 + 1)
          rest.length (Nat.mod_add_mod (counter + 1) (2 ^ 64) 1)]

/-- C5 counterexample.  The claim quantifies over every sequence of
constructions, but `sessionIdCounter` is an `AtomicUInt64`: across a
sequence of `2 ^ 64` constructions from the zeroed counter the increment
wraps, and the last constructed session is assigned identifier 0 — so it is
not the case that every assigned identifier is non-zero. -/
theorem session_id_zero_after_wrap :
    ¬ ∀ s ∈ constructAll sessionIdCounterInit
        (List.replicate (2 ^ 64) (someAddr, someAddr, none)),
      s.id ≠ 0 := by
  intro h
  have hmem0 : (0 : Nat) ∈ (constructAll sessionIdCounterInit
      (List.replicate (2 ^ 64) (someAddr, someAddr, none))).map Session.id := by
    rw [constructAll_ids, List.length_replicate]
    refine List.mem_map.mpr ⟨2 ^ 64, ?_, Nat.mod_self (2 ^ 64)⟩
    show 2 ^ 64 ∈ List.range' (0 + 1) (2 ^ 64)
    exact List.mem_range'_1.mpr ⟨by omega, by omega⟩
  obtain ⟨s, hsmem, hsid⟩ := List.mem_map.mp hmem0
  exact h s hsmem hsid

/-- C5 (amended).  For every sequence of fewer than `2 ^ 64` session
constructions from the zeroed process-wide counter — i.e. before the 64-bit
counter first wraps — the identifiers, each assigned by a single atomic
increment, are strictly increasing in construction order (hence pairwise
distinct) and never zero. -/
theorem session_ids_unique_nonzero
    (args : List (HostAndPort × HostAndPort × Option Nat))
    (hlen : args.length < 2 ^ 64) :
    ((constructAll sessionIdCounterInit args).map Session.id).Pairwise (· < ·)
      ∧ ∀ s ∈ constructAll sessionIdCounterInit args, s.id ≠ 0 := by
  have hids : (constructAll sessionIdCounterInit args).map Session.id
      = List.range' 1 args.length := by
    rw [constructAll_ids]
    show (List.range' (0 + 1) args.length).map (fun x => x % 2 ^ 64)
      = List.range' (0 + 1) args.length
    have hmod : ∀ x ∈ List.range' (0 + 1) args.length, x % 2 ^ 64 = x := by
      intro x hx
      rcases List.mem_range'_1.mp hx with ⟨h1, h2⟩
      exact Nat.mod_eq_of_lt (by omega)
    calc (List.range' (0 + 1) args.length).map (fun x => x % 2 ^ 64)
        = (List.range' (0 + 1) args.length).map id := List.map_congr_left hmod
      _ = List.range' (0 + 1) args.length := List.map_id _
  constructor
  · rw [hids]
    exact List.pairwise_lt_range' _ _ 1 (by omega)
  · intro s hs
    have hmem : s.id ∈ (constructAll sessionIdCounterInit args).map Session.id :=
      List.mem_map_of_mem Session.id hs
    rw [hids] at hmem
    have := (List.mem_range'_1.mp hmem).1
    omega

/-! ## Connection Registry: `ServiceEntryPointImpl::startSession`
(service_entry_point_impl.cpp:47-100)

The body of `startSession` is embedded as the ordered list of observable
actions it performs.  The driver (`ServiceStateMachine`) is modelled for the
synchronous worker loop by the number of `runNext()` calls it takes to reach
`State::Ended`; `loads k` is the value `_nWorkers.load()` observes at the
k-th loop iteration (other workers may change it between iterations). -/

inductive StartEvent where
  | setRestrictionEnv
  | createDriver
  | insertRegistry
  | installCleanupHook
  | scheduleNextCall
  | launchWorker
  | workerIncr
  | workerDecr
  | runNextCall
  | yieldThread
deriving DecidableEq, Repr

/-- Core selection of `numCores` inside the worker lambda
(service_entry_point_impl.cpp:80-86): `availCores` if retrievable, else
`getNumCores()`. -/
def numCoresOf (availCores : Option Nat) (cores : Nat) : Nat :=
  match availCores with
  | some a => a
  | none => cores

/-- The worker loop (service_entry_point_impl.cpp:88-98): while
`state() != Ended`, call `runNext()`, then yield iff
`_nWorkers.load() > numCores`.  `steps` is the number of `runNext()` calls
left before the driver reaches `Ended`. -/
def workerLoop (loads : Nat → Nat) (numCores : Nat) : Nat → List StartEvent
  | 0 => []
  | steps + 1 =>
    StartEvent.runNextCall
      :: ((if numCores < loads steps then [StartEvent.yieldThread] else [])
          ++ workerLoop loads numCores steps)

/-- Trace of `startSession` after the address invariant holds
(service_entry_point_impl.cpp:52-99): set the restriction environment,
create the driver with `sync = (getServiceExecutor() == nullptr)`, insert it
into `_sessions` under the lock, install the cleanup hook, then either
`scheduleNext()` (executor configured) or launch the dedicated worker, which
increments `_nWorkers` on entry and decrements it on exit around the loop. -/
def startSessionEvents (executorConfigured : Bool) (loads : Nat → Nat)
    (availCores : Option Nat) (cores : Nat) (steps : Nat) : List StartEvent :=
  [StartEvent.setRestrictionEnv, StartEvent.createDriver,
   StartEvent.insertRegistry, StartEvent.installCleanupHook]
    ++ (if executorConfigured then [StartEvent.scheduleNextCall]
        else StartEvent.launchWorker :: StartEvent.workerIncr
              :: (workerLoop loads (numCoresOf availCores cores) steps
                  ++ [StartEvent.workerDecr]))

/-- Full `startSession` (service_entry_point_impl.cpp:47-100): first reads
`session->remote().sockAddr()` and `session->local().sockAddr()` and checks
`invariant(remoteAddr && localAddr)` — a fatal process-terminating failure
when either is unresolved — then proceeds as `startSessionEvents`. -/
def startSession (remote localA : HostAndPort) (executorConfigured : Bool)
    (loads : Nat → Nat) (availCores : Option Nat) (cores : Nat)
    (steps : Nat) : Except Unit (List StartEvent) :=
  if remote.sockAddr.isSome && localA.sockAddr.isSome then
    Except.ok (startSessionEvents executorConfigured loads availCores cores steps)
  else
    Except.error ()

/-- C8.  `startSession` terminates the process via an invariant violation
exactly when the endpoint lacks a resolved remote or local socket address;
with both addresses resolved it succeeds and propagates no error outward. -/
theorem startSession_fatal_iff_unresolved (remote localA : HostAndPort)
    (executorConfigured : Bool) (loads : Nat → Nat) (availCores : Option Nat)
    (cores steps : Nat) :
    (startSession remote localA executorConfigured loads availCores cores steps
        = Except.error ())
      ↔ (remote.sockAddr = none ∨ localA.sockAddr = none) := by
  unfold startSession
  rcases h1 : remote.sockAddr with _ | a <;> rcases h2 : localA.sockAddr with _ | b <;>
    simp [Option.isSome]

/-! ### C6: execution-strategy selection -/

theorem workerLoop_count_runNext (loads : Nat → Nat) (numCores steps : Nat) :
    (workerLoop loads numCores steps).count StartEvent.runNextCall = steps := by
  induction steps with
  | zero => rfl
  | succ n ih =>
    by_cases h : numCores < loads n <;>
      simp [workerLoop, h, List.count_cons, List.count_append, ih]

theorem workerLoop_count_yield (loads : Nat → Nat) (numCores steps : Nat) :
    (workerLoop loads numCores steps).count StartEvent.yieldThread
      = ((List.range steps).filter (fun k => numCores < loads k)).length := by
  induction steps with
  | zero => rfl
  | succ n ih =>
    by_cases h : numCores < loads n <;>
      simp [workerLoop, h, List.count_cons, List.count_append, ih,
        List.range_succ, List.filter_append]

theorem workerLoop_count_other (loads : Nat → Nat) (numCores steps : Nat)
    (e : StartEvent) (h1 : e ≠ StartEvent.runNextCall)
    (h2 : e ≠ StartEvent.yieldThread) :
    (workerLoop loads numCores steps).count e = 0 := by
  induction steps with
  | zero => rfl
  | succ n ih =>
    by_cases h : numCores < loads n <;>
      simp [workerLoop, h, List.count_cons, List.count_append, ih, h1, h2]

/-- C6.  Strategy selection in `startSession`: with an executor configured the
trace contains exactly one `scheduleNext()` call and no worker activity;
without one it contains no `scheduleNext()` call, launches exactly one
dedicated worker which increments and decrements the active-worker count
exactly once, calls `runNext()` once per step until the driver reaches
`Ended`, and yields exactly at the steps where the observed active-worker
count exceeds the number of available processing cores. -/
theorem startSession_strategy (executorConfigured : Bool) (loads : Nat → Nat)
    (availCores : Option Nat) (cores steps : Nat) :
    (startSessionEvents executorConfigured loads availCores cores steps).count
        StartEvent.scheduleNextCall = (if executorConfigured then 1 else 0)
      ∧ (startSessionEvents executorConfigured loads availCores cores steps).count
        StartEvent.launchWorker = (if executorConfigured then 0 else 1)
      ∧ (startSessionEvents executorConfigured loads availCores cores steps).count
        StartEvent.workerIncr = (if executorConfigured then 0 else 1)
      ∧ (startSessionEvents executorConfigured loads availCores cores steps).count
        StartEvent.workerDecr = (if executorConfigured then 0 else 1)
      ∧ (startSessionEvents executorConfigured loads availCores cores steps).count
        StartEvent.runNextCall = (if executorConfigured then 0 else steps)
      ∧ (startSessionEvents executorConfigured loads availCores cores steps).count
        StartEvent.yieldThread
        = (if executorConfigured then 0
           else ((List.range steps).filter
              (fun k => numCoresOf availCores cores < loads k)).length) := by
  cases executorConfigured <;>
    refine ⟨?_, ?_, ?_, ?_, ?_, ?_⟩ <;>
      simp [startSessionEvents, List.count_cons, List.count_append,
        workerLoop_count_runNext, workerLoop_count_yield,
        workerLoop_count_other]

/-! ### C10: registration and hook installation precede execution -/

/-- An event at which execution of the driver begins or proceeds: the single
`scheduleNext()` call or a worker `runNext()` call. -/
def StartEvent.isExec : StartEvent → Bool
  | StartEvent.scheduleNextCall => true
  | StartEvent.runNextCall => true
  | _ => false

theorem startSessionEvents_take_four (executorConfigured : Bool)
    (loads : Nat → Nat) (availCores : Option Nat) (cores steps : Nat) :
    (startSessionEvents executorConfigured loads availCores cores steps).take 4
      = [StartEvent.setRestrictionEnv, StartEvent.createDriver,
         StartEvent.insertRegistry, StartEvent.installCleanupHook] := by
  cases executorConfigured <;> rfl

/-- C10.  In every `startSession` trace, the driver is inserted into the
registry at position 2 and its cleanup hook installed at position 3, and
every execution event (`scheduleNext()` or a `runNext()`) occurs strictly
later: insertion and hook installation happen before execution begins. -/
theorem startSession_registers_before_exec (executorConfigured : Bool)
    (loads : Nat → Nat) (availCores : Option Nat) (cores steps : Nat)
    (p : Nat)
    (hp : p < (startSessionEvents executorConfigured loads availCores cores steps).length)
    (hex : ((startSessionEvents executorConfigured loads availCores cores
        steps).get ⟨p, hp⟩).isExec = true) :
    (startSessionEvents executorConfigured loads availCores cores
        steps).indexOf StartEvent.insertRegistry = 2
      ∧ (startSessionEvents executorConfigured loads availCores cores
        steps).indexOf StartEvent.installCleanupHook = 3
      ∧ 3 < p := by
  refine ⟨?_, ?_, ?_⟩
  · cases executorConfigured <;> rfl
  · cases executorConfigured <;> rfl
  · by_contra hle
    have hp4 : p < 4 := by omega
    have hp4 : p < 4 := by omega
    have hpre : (startSessionEvents executorConfigured loads availCores cores
          steps).get ⟨p, hp⟩
        = ([StartEvent.setRestrictionEnv, StartEvent.createDriver,
            StartEvent.insertRegistry, StartEvent.installCleanupHook]
            : List StartEvent).get ⟨p, hp4⟩ := by
      simp only [startSessionEvents, List.get_eq_getElem]
      exact List.getElem_append_left (by simpa using hp4)
    rw [hpre] at hex
    interval_cases p <;> exact Bool.false_ne_true hex

/-- Witness for C10 at a concrete trace: with an executor configured and a
one-step driver, position 4 holds the `scheduleNext()` call, and it follows
registration (position 2) and hook installation (position 3). -/
theorem startSession_registers_before_exec_witness :
    ((startSessionEvents true (fun _ => 0) none 4 1).get
        ⟨4, by decide⟩).isExec = true
      ∧ (startSessionEvents true (fun _ => 0) none 4 1).indexOf
          StartEvent.insertRegistry = 2
      ∧ (startSessionEvents true (fun _ => 0) none 4 1).indexOf
          StartEvent.installCleanupHook = 3
      ∧ 3 < 4 :=
  ⟨by decide,
   (startSession_registers_before_exec true (fun _ => 0) none 4 1 4
      (by decide) (by decide))⟩

/-! ## Per-Connection Driver contract and `endAllSessions`
(service_entry_point_impl.cpp:102-130)

A `ServiceStateMachine` is modelled by what `endAllSessions` observes of it:
its session's id and tag mask (`session()->id()`, `session()->getTags()`)
and its lifecycle state.  Registered drivers are identified by their
position in the `_sessions` list; `Session::TagMask` is a bitmask,
modelled as `Nat` with bitwise and. -/

inductive SSMState where
  | Created
  | Running
  | Ended
deriving DecidableEq, Repr, Inhabited

structure SSM where
  sessionId : Nat
  sessionTags : Nat
  state : SSMState
deriving DecidableEq, Repr, Inhabited

/-- Driver contract `terminate()` (§4.2): forces the state to `Ended`; a
no-op when the driver is already `Ended`. -/
def SSM.terminate (s : SSM) : SSM := { s with state := SSMState.Ended }

/-- The tag test of service_entry_point_impl.cpp:114,
`ssm->session()->getTags() & tags`: true when the tag sets intersect. -/
def tagsIntersect (sessionTags tags : Nat) : Bool :=
  sessionTags &&& tags ≠ 0

/-- Snapshot loop of `endAllSessions` (service_entry_point_impl.cpp:111-120):
under the lock, the indices (registry positions) of the drivers whose tags do
not intersect `tags` are collected into `connsToEnd`. -/
def connsToEnd (sessions : List SSM) (tags : Nat) : List Nat :=
  (List.range sessions.length).filter fun i =>
    !tagsIntersect ((sessions.getD i default).sessionTags) tags

/-- Skip log of `endAllSessions` (service_entry_point_impl.cpp:115): the ids
logged for the drivers whose tags intersect `tags`. -/
def skippedLog (sessions : List SSM) (tags : Nat) : List Nat :=
  ((List.range sessions.length).filter fun i =>
      tagsIntersect ((sessions.getD i default).sessionTags) tags).map
    fun i => (sessions.getD i default).sessionId

/-- One `ssm->terminate()` call on the driver at registry position `i`
(service_entry_point_impl.cpp:128). -/
def terminateAt (sessions : List SSM) (i : Nat) : List SSM :=
  match sessions[i]? with
  | some s => sessions.set i s.terminate
  | none => sessions

/-- `endAllSessions(tags)` (service_entry_point_impl.cpp:102-130): build the
snapshot `connsToEnd` under the lock, then call `terminate()` on each
snapshotted driver in order.  Returns the final driver states. -/
def endAllSessions (sessions : List SSM) (tags : Nat) : List SSM :=
  (connsToEnd sessions tags).foldl terminateAt sessions

theorem terminateAt_getElem (sessions : List SSM) (i j : Nat) :
    (terminateAt sessions i)[j]?
      = if j = i then sessions[j]?.map SSM.terminate
        else sessions[j]? := by
  unfold terminateAt
  rcases hi : sessions[i]? with _ | s
  · rcases eq_or_ne j i with h | h <;> simp [h, hi]
  · rcases eq_or_ne j i with h | h
    · subst h
      obtain ⟨hlen, hv⟩ := List.getElem?_eq_some.mp hi
      rw [if_pos rfl, List.getElem?_set_self hlen, hi]
      rfl
    · rw [if_neg h]
      exact List.getElem?_set_ne (Ne.symm h)

theorem foldl_terminateAt_getElem (is : List Nat) (sessions : List SSM)
    (j : Nat) :
    (is.foldl terminateAt sessions)[j]?
      = if j ∈ is then sessions[j]?.map SSM.terminate
        else sessions[j]? := by
  induction is generalizing sessions with
  | nil => simp
  | cons i rest ih =>
    rw [List.foldl_cons, ih, terminateAt_getElem]
    rcases eq_or_ne j i with h | h
    · subst h
      rcases sessions[j]? with _ | s <;>
        simp [List.mem_cons, SSM.terminate]
    · simp [List.mem_cons, h]

theorem mem_connsToEnd (sessions : List SSM) (tags : Nat) (i : Nat) :
    i ∈ connsToEnd sessions tags
      ↔ i < sessions.length
          ∧ tagsIntersect (sessions.getD i default).sessionTags tags
              = false := by
  simp [connsToEnd, List.mem_filter, List.mem_range]

/-- C3.  `endAllSessions(tagFilter)` calls `terminate()` on exactly the
registered drivers whose tag set has empty intersection with `tagFilter`
(those drivers end `Ended`); every driver whose tags do intersect is not in
the snapshot, has its id logged as skipped, and is left unchanged. -/
theorem endAllSessions_terminates_exactly (sessions : List SSM) (tags : Nat)
    (i : Nat) (hi : i < sessions.length) :
    (tagsIntersect (sessions.getD i default).sessionTags tags = false →
        i ∈ connsToEnd sessions tags
          ∧ (endAllSessions sessions tags)[i]?
              = some (sessions.getD i default).terminate)
      ∧ (tagsIntersect (sessions.getD i default).sessionTags tags = true →
        i ∉ connsToEnd sessions tags
          ∧ (endAllSessions sessions tags)[i]?
              = some (sessions.getD i default)
          ∧ (sessions.getD i default).sessionId
              ∈ skippedLog sessions tags) := by
  have hget : sessions[i]? = some (sessions.getD i default) := by
    rw [List.getD_eq_getElem?_getD]
    rcases hx : sessions[i]? with _ | s
    · exact absurd (List.getElem?_eq_none_iff.mp hx) (by omega)
    · rfl
  constructor
  · intro hno
    have hmem : i ∈ connsToEnd sessions tags :=
      (mem_connsToEnd sessions tags i).mpr ⟨hi, hno⟩
    refine ⟨hmem, ?_⟩
    rw [endAllSessions, foldl_terminateAt_getElem, if_pos hmem, hget]
    rfl
  · intro hyes
    have hnmem : i ∉ connsToEnd sessions tags := by
      intro hc
      have h2 := ((mem_connsToEnd sessions tags i).mp hc).2
      rw [h2] at hyes
      exact Bool.false_ne_true hyes
    refine ⟨hnmem, ?_, ?_⟩
    · rw [endAllSessions, foldl_terminateAt_getElem, if_neg hnmem, hget]
    · unfold skippedLog
      refine List.mem_map_of_mem _ ?_
      rw [List.mem_filter]
      exact ⟨List.mem_range.mpr hi, hyes⟩

/-- Witness for C3 on a concrete registry: two running drivers, the first
with tags intersecting the filter (skipped and logged, left unchanged), the
second with disjoint tags (snapshotted and terminated). -/
theorem endAllSessions_terminates_exactly_witness :
    (1 ∈ connsToEnd
        [⟨5, 2, SSMState.Running⟩, ⟨6, 4, SSMState.Running⟩] 2
      ∧ (endAllSessions
          [⟨5, 2, SSMState.Running⟩, ⟨6, 4, SSMState.Running⟩] 2)[1]?
        = some ⟨6, 4, SSMState.Ended⟩)
    ∧ (0 ∉ connsToEnd
        [⟨5, 2, SSMState.Running⟩, ⟨6, 4, SSMState.Running⟩] 2
      ∧ (endAllSessions
          [⟨5, 2, SSMState.Running⟩, ⟨6, 4, SSMState.Running⟩] 2)[0]?
        = some ⟨5, 2, SSMState.Running⟩
      ∧ 5 ∈ skippedLog
          [⟨5, 2, SSMState.Running⟩, ⟨6, 4, SSMState.Running⟩] 2) :=
  ⟨((endAllSessions_terminates_exactly
      [⟨5, 2, SSMState.Running⟩, ⟨6, 4, SSMState.Running⟩] 2 1
      (by decide)).1 (by decide)),
   ((endAllSessions_terminates_exactly
      [⟨5, 2, SSMState.Running⟩, ⟨6, 4, SSMState.Running⟩] 2 0
      (by decide)).2 (by decide))⟩

/-! ## C7: lock discipline of `endAllSessions`
(service_entry_point_impl.cpp:111-129)

The body of `endAllSessions` is embedded as the ordered list of its lock and
driver interactions: acquire `_sessionsMutex`, then for each registered
driver read `ssm->session()->getTags()` and either log
`ssm->session()->id()` as skipped or copy the owning reference into the
snapshot, then release the lock (end of the scoped `unique_lock`), then call
`ssm->terminate()` on each snapshot entry. -/

inductive EASEvent where
  | acquireLock
  | tagQuery (i : Nat)
  | logSkip (i : Nat)
  | snapshotAdd (i : Nat)
  | releaseLock
  | terminateCall (i : Nat)
deriving DecidableEq, Repr

/-- The loop body executed under the lock
(service_entry_point_impl.cpp:112-119), per registry position. -/
def snapshotPhase (sessions : List SSM) (tags : Nat) : List EASEvent :=
  (List.range sessions.length).flatMap fun i =>
    EASEvent.tagQuery i
      :: (if tagsIntersect (sessions.getD i default).sessionTags tags
          then [EASEvent.logSkip i] else [EASEvent.snapshotAdd i])

/-- The full event trace of `endAllSessions`. -/
def endAllSessionsTrace (sessions : List SSM) (tags : Nat) : List EASEvent :=
  EASEvent.acquireLock
    :: (snapshotPhase sessions tags
        ++ EASEvent.releaseLock
            :: (connsToEnd sessions tags).map EASEvent.terminateCall)

/-- The mutex is held while the event at position `p` executes: the acquires
strictly before `p` outnumber the releases strictly before `p`. -/
def lockHeldDuring (tr : List EASEvent) (p : Nat) : Bool :=
  (tr.take p).count EASEvent.releaseLock < (tr.take p).count EASEvent.acquireLock

/-- An event that is a call into a driver: reading the tags or the id of its
session, or `terminate()`. -/
def EASEvent.isDriverCall : EASEvent → Bool
  | EASEvent.tagQuery _ => true
  | EASEvent.logSkip _ => true
  | EASEvent.terminateCall _ => true
  | _ => false

/-- The claim "the registry lock is never held across a call into a driver",
as a check over a trace. -/
def noDriverCallUnderLock (tr : List EASEvent) : Bool :=
  (List.range tr.length).all fun p =>
    !(lockHeldDuring tr p && (tr.getD p EASEvent.releaseLock).isDriverCall)

theorem snapshotPhase_events (sessions : List SSM) (tags : Nat) :
    ∀ e ∈ snapshotPhase sessions tags,
      e ≠ EASEvent.acquireLock ∧ e ≠ EASEvent.releaseLock
        ∧ ∀ i, e ≠ EASEvent.terminateCall i := by
  intro e he
  rw [snapshotPhase, List.mem_flatMap] at he
  obtain ⟨i, _, hei⟩ := he
  rw [List.mem_cons] at hei
  rcases hei with h | h
  · subst h
    exact ⟨by simp, by simp, fun j => by simp⟩
  · by_cases hx : tagsIntersect (sessions.getD i default).sessionTags tags = true
    · rw [if_pos hx, List.mem_singleton] at h
      subst h
      exact ⟨by simp, by simp, fun j => by simp⟩
    · rw [if_neg hx, List.mem_singleton] at h
      subst h
      exact ⟨by simp, by simp, fun j => by simp⟩

theorem snapshotPhase_count_acquire (sessions : List SSM) (tags : Nat) :
    (snapshotPhase sessions tags).count EASEvent.acquireLock = 0 :=
  List.count_eq_zero.mpr fun hmem =>
    (snapshotPhase_events sessions tags _ hmem).1 rfl

theorem snapshotPhase_count_release (sessions : List SSM) (tags : Nat) :
    (snapshotPhase sessions tags).count EASEvent.releaseLock = 0 :=
  List.count_eq_zero.mpr fun hmem =>
    (snapshotPhase_events sessions tags _ hmem).2.1 rfl

theorem terminatePhase_count_acquire (is : List Nat) :
    (is.map EASEvent.terminateCall).count EASEvent.acquireLock = 0 :=
  List.count_eq_zero.mpr fun hmem => by
    obtain ⟨i, _, h⟩ := List.mem_map.mp hmem
    exact EASEvent.noConfusion h

theorem terminatePhase_count_release (is : List Nat) :
    (is.map EASEvent.terminateCall).count EASEvent.releaseLock = 0 :=
  List.count_eq_zero.mpr fun hmem => by
    obtain ⟨i, _, h⟩ := List.mem_map.mp hmem
    exact EASEvent.noConfusion h

theorem count_take_eq_zero {e : EASEvent} {l : List EASEvent} (q : Nat)
    (h : l.count e = 0) : (l.take q).count e = 0 :=
  Nat.le_zero.mp (h ▸ (List.take_sublist q l).count_le e)

/-- Characterization of the lock window in the `endAllSessions` trace: the
mutex is held exactly during positions 1 through `(snapshotPhase).length + 1`
(the snapshot loop and the release itself). -/
theorem lockHeldDuring_endAllSessionsTrace (sessions : List SSM) (tags : Nat)
    (p : Nat) :
    lockHeldDuring (endAllSessionsTrace sessions tags) p = true
      ↔ (1 ≤ p ∧ p ≤ (snapshotPhase sessions tags).length + 1) := by
  unfold lockHeldDuring endAllSessionsTrace
  cases p with
  | zero => simp
  | succ q =>
    rw [List.take_succ_cons, List.take_append_eq_append_take]
    rcases le_or_lt q (snapshotPhase sessions tags).length with hq | hq
    · rcases Nat.lt_or_ge q (snapshotPhase sessions tags).length with hq2 | hq2
      · rw [Nat.sub_eq_zero_of_le (Nat.le_of_lt hq2), List.take_zero]
        simp only [List.count_cons, List.count_append, List.count_nil]
        rw [count_take_eq_zero q (snapshotPhase_count_release sessions tags),
            count_take_eq_zero q (snapshotPhase_count_acquire sessions tags)]
        simp
        omega
      · have hqe : q = (snapshotPhase sessions tags).length := by omega
        rw [hqe, Nat.sub_self, List.take_zero]
        simp only [List.count_cons, List.count_append, List.count_nil]
        rw [count_take_eq_zero _ (snapshotPhase_count_release sessions tags),
            count_take_eq_zero _ (snapshotPhase_count_acquire sessions tags)]
        simp
    · obtain ⟨r, hr⟩ : ∃ r, q - (snapshotPhase sessions tags).length = r + 1 :=
        ⟨q - (snapshotPhase sessions tags).length - 1, by omega⟩
      rw [hr, List.take_succ_cons]
      simp only [List.count_cons, List.count_append]
      rw [count_take_eq_zero q (snapshotPhase_count_release sessions tags),
          count_take_eq_zero q (snapshotPhase_count_acquire sessions tags),
          count_take_eq_zero r (terminatePhase_count_release _),
          count_take_eq_zero r (terminatePhase_count_acquire _)]
      simp
      omega

theorem getD_mem_of_lt {α : Type} (l : List α) (n : Nat) (d : α)
    (h : n < l.length) : l.getD n d ∈ l := by
  rw [List.getD_eq_getElem?_getD]
  rcases hx : l[n]? with _ | a
  · exact absurd (List.getElem?_eq_none_iff.mp hx) (by omega)
  · exact List.getElem?_mem hx

/-- C7 counterexample.  The claim "the registry lock is never held across a
call into a driver" fails as stated: on a registry with one running driver
and an empty tag filter, position 1 of the `endAllSessions` trace is the
`ssm->session()->getTags()` read — a call into the driver — and the lock is
held there. -/
theorem lock_held_across_tagQuery :
    noDriverCallUnderLock
        (endAllSessionsTrace [⟨1, 0, SSMState.Running⟩] 0) = false
      ∧ (endAllSessionsTrace [⟨1, 0, SSMState.Running⟩] 0).getD 1
          EASEvent.releaseLock = EASEvent.tagQuery 0
      ∧ lockHeldDuring (endAllSessionsTrace [⟨1, 0, SSMState.Running⟩] 0) 1
          = true := by
  refine ⟨by decide, by decide, by decide⟩

/-- C7 (amended).  In every `endAllSessions` trace, the snapshot of owning
driver references is built entirely while the registry lock is held, and the
lock is released before `terminate()` — the only blocking call into a
driver — is called on any snapshot entry (non-blocking tag/id accessor reads
do occur under the lock). -/
theorem endAllSessions_lock_discipline (sessions : List SSM) (tags : Nat)
    (p i : Nat) :
    ((endAllSessionsTrace sessions tags).getD p EASEvent.releaseLock
        = EASEvent.snapshotAdd i →
      lockHeldDuring (endAllSessionsTrace sessions tags) p = true)
      ∧ ((endAllSessionsTrace sessions tags).getD p EASEvent.releaseLock
        = EASEvent.terminateCall i →
      lockHeldDuring (endAllSessionsTrace sessions tags) p = false) := by
  constructor
  · intro hev
    rw [lockHeldDuring_endAllSessionsTrace]
    cases p with
    | zero => exact absurd hev (by simp [endAllSessionsTrace])
    | succ q =>
      refine ⟨by omega, ?_⟩
      rw [endAllSessionsTrace, List.getD_cons_succ] at hev
      rcases Nat.lt_or_ge q (snapshotPhase sessions tags).length with hq | hq
      · omega
      · exfalso
        rw [List.getD_append_right _ _ _ _ hq] at hev
        rcases hz : q - (snapshotPhase sessions tags).length with _ | r
        · rw [hz, List.getD_cons_zero] at hev
          exact EASEvent.noConfusion hev
        · rw [hz, List.getD_cons_succ] at hev
          rcases Nat.lt_or_ge r ((connsToEnd sessions tags).map
              EASEvent.terminateCall).length with hr | hr
          · have hmem := getD_mem_of_lt _ r EASEvent.releaseLock hr
            rw [hev] at hmem
            obtain ⟨j, _, hj⟩ := List.mem_map.mp hmem
            exact EASEvent.noConfusion hj
          · rw [List.getD_eq_default _ _ hr] at hev
            exact EASEvent.noConfusion hev
  · intro hev
    cases p with
    | zero => exact absurd hev (by simp [endAllSessionsTrace])
    | succ q =>
      have hnot : ¬(q + 1 ≤ (snapshotPhase sessions tags).length + 1) := by
        intro hle
        rw [endAllSessionsTrace, List.getD_cons_succ] at hev
        rcases Nat.lt_or_ge q (snapshotPhase sessions tags).length with hq | hq
        · rw [List.getD_append _ _ _ _ hq] at hev
          have hmem := getD_mem_of_lt _ q EASEvent.releaseLock hq
          rw [hev] at hmem
          exact (snapshotPhase_events sessions tags _ hmem).2.2 i rfl
        · have hqe : q = (snapshotPhase sessions tags).length := by omega
          rw [List.getD_append_right _ _ _ _ hq, hqe, Nat.sub_self,
            List.getD_cons_zero] at hev
          exact EASEvent.noConfusion hev
      rcases hb : lockHeldDuring (endAllSessionsTrace sessions tags) (q + 1) with _ | _
      · rfl
      · exact absurd ((lockHeldDuring_endAllSessionsTrace sessions tags
          (q + 1)).mp hb).2 hnot

/-- Witness for C7 (amended) on the one-driver registry: position 2 is the
snapshot copy and happens under the lock; position 4 is the `terminate()`
call and happens after the release. -/
theorem endAllSessions_lock_discipline_witness :
    ((endAllSessionsTrace [⟨1, 0, SSMState.Running⟩] 0).getD 2
        EASEvent.releaseLock = EASEvent.snapshotAdd 0
      ∧ lockHeldDuring (endAllSessionsTrace [⟨1, 0, SSMState.Running⟩] 0) 2
          = true)
    ∧ ((endAllSessionsTrace [⟨1, 0, SSMState.Running⟩] 0).getD 4
        EASEvent.releaseLock = EASEvent.terminateCall 0
      ∧ lockHeldDuring (endAllSessionsTrace [⟨1, 0, SSMState.Running⟩] 0) 4
          = false) :=
  ⟨⟨by decide,
    (endAllSessions_lock_discipline [⟨1, 0, SSMState.Running⟩] 0 2 0).1
      (by decide)⟩,
   ⟨by decide,
    (endAllSessions_lock_discipline [⟨1, 0, SSMState.Running⟩] 0 4 0).2
      (by decide)⟩⟩

/-! ## C4: registry size tracks non-Ended drivers

A transition system over the registry: `startSession` creates a fresh driver
and inserts it at the front of `_sessions`
(service_entry_point_impl.cpp:59-68, `_sessions.emplace(_sessions.begin(),
ssm)`) and installs the cleanup hook; a driver may take a `runNext()` step
that leaves it running; when a driver reaches `State::Ended` its cleanup
hook erases its entry from `_sessions` under the lock
(service_entry_point_impl.cpp:65-68).  Drivers are identified by a fresh
number per `startSession`. -/

structure Driver where
  did : Nat
  state : SSMState
deriving DecidableEq, Repr

structure SEPModel where
  sessions : List Nat
  drivers : List Driver
  nextDriver : Nat
deriving DecidableEq, Repr

def SEPModel.init : SEPModel := { sessions := [], drivers := [], nextDriver := 0 }

/-- `ServiceEntryPointImpl::getNumberOfConnections`
(service_entry_point_impl.cpp:132-135): the size of `_sessions` under the
lock. -/
def getNumberOfConnections (st : SEPModel) : Nat := st.sessions.length

inductive RegEvent where
  | startSession
  | runNextStep (did : Nat)
  | reachEnded (did : Nat)
deriving DecidableEq, Repr

def driverLive (ds : List Driver) (did : Nat) : Bool :=
  ds.any fun d => d.did == did && !(d.state == SSMState.Ended)

def setRunning (ds : List Driver) (did : Nat) : List Driver :=
  ds.map fun d =>
    if d.did = did ∧ d.state ≠ SSMState.Ended
    then { d with state := SSMState.Running } else d

def setEnded (ds : List Driver) (did : Nat) : List Driver :=
  ds.map fun d => if d.did = did then { d with state := SSMState.Ended } else d

/-- The cleanup hook installed by `startSession`
(service_entry_point_impl.cpp:65-68): under the lock, erase this driver's
entry from `_sessions`. -/
def cleanupHook (sessions : List Nat) (did : Nat) : List Nat :=
  sessions.erase did

def SEPModel.step (st : SEPModel) : RegEvent → SEPModel
  | RegEvent.startSession =>
    { sessions := st.nextDriver :: st.sessions,
      drivers := st.drivers ++ [⟨st.nextDriver, SSMState.Created⟩],
      nextDriver := st.nextDriver + 1 }
  | RegEvent.runNextStep did =>
    { st with drivers := setRunning st.drivers did }
  | RegEvent.reachEnded did =>
    if driverLive st.drivers did then
      { st with drivers := setEnded st.drivers did,
                sessions := cleanupHook st.sessions did }
    else st

def SEPModel.run (events : List RegEvent) : SEPModel :=
  events.foldl SEPModel.step SEPModel.init

/-- Drivers created by `startSession` that have not yet reached `Ended`. -/
def liveDriverIds (ds : List Driver) : List Nat :=
  (ds.filter fun d => !(d.state == SSMState.Ended)).map Driver.did

def SEPInv (st : SEPModel) : Prop :=
  st.sessions.Perm (liveDriverIds st.drivers)
    ∧ (st.drivers.map Driver.did).Nodup
    ∧ ∀ d ∈ st.drivers, d.did < st.nextDriver

theorem liveDriverIds_setRunning (ds : List Driver) (did : Nat) :
    liveDriverIds (setRunning ds did) = liveDriverIds ds := by
  induction ds with
  | nil => rfl
  | cons d rest ih =>
    by_cases h : d.did = did ∧ d.state ≠ SSMState.Ended <;>
      rcases hs : d.state with _ | _ | _ <;>
      simp_all [setRunning, liveDriverIds, List.filter_cons]

theorem liveDriverIds_subset (ds : List Driver) :
    liveDriverIds ds ⊆ ds.map Driver.did :=
  List.Sublist.subset (List.Sublist.map _ (List.filter_sublist ds))

theorem setEnded_id (ds : List Driver) (did : Nat)
    (h : ∀ e ∈ ds, e.did ≠ did) : setEnded ds did = ds := by
  induction ds with
  | nil => rfl
  | cons d rest ih =>
    show (if d.did = did then _ else d) :: setEnded rest did = d :: rest
    rw [if_neg (h d (List.mem_cons_self d rest)),
        ih fun e he => h e (List.mem_cons_of_mem d he)]

theorem liveDriverIds_cons (d : Driver) (rest : List Driver) :
    liveDriverIds (d :: rest)
      = if d.state = SSMState.Ended then liveDriverIds rest
        else d.did :: liveDriverIds rest := by
  by_cases h : d.state = SSMState.Ended <;>
    simp [liveDriverIds, List.filter_cons, h]

theorem liveDriverIds_setEnded (ds : List Driver) (did : Nat)
    (hnd : (ds.map Driver.did).Nodup) :
    liveDriverIds (setEnded ds did) = (liveDriverIds ds).erase did := by
  induction ds with
  | nil => rfl
  | cons d rest ih =>
    rw [List.map_cons, List.nodup_cons] at hnd
    by_cases h : d.did = did
    · subst h
      have hnin : ∀ e ∈ rest, e.did ≠ d.did := by
        intro e he heq
        exact hnd.1 (heq ▸ List.mem_map_of_mem Driver.did he)
      have hrest : setEnded rest d.did = rest := setEnded_id rest d.did hnin
      have hner : d.did ∉ liveDriverIds rest := by
        intro hmem
        obtain ⟨e, he, heq⟩ := List.mem_map.mp
          (liveDriverIds_subset rest hmem)
        exact hnin e he heq
      show liveDriverIds ((if d.did = d.did then
          { d with state := SSMState.Ended } else d) :: setEnded rest d.did)
        = (liveDriverIds (d :: rest)).erase d.did
      rw [if_pos rfl, hrest, liveDriverIds_cons, liveDriverIds_cons]
      rw [show ({ d with state := SSMState.Ended } : Driver).state
            = SSMState.Ended from rfl]
      rw [if_pos rfl]
      by_cases hs : d.state = SSMState.Ended
      · rw [if_pos hs, List.erase_of_not_mem hner]
      · rw [if_neg hs, List.erase_cons_head]
    · have hstep : setEnded (d :: rest) did = d :: setEnded rest did := by
        show (if d.did = did then _ else d) :: _ = _
        rw [if_neg h]
        rfl
      rw [hstep, liveDriverIds_cons, liveDriverIds_cons]
      by_cases hs : d.state = SSMState.Ended
      · rw [if_pos hs, if_pos hs, ih hnd.2]
      · rw [if_neg hs, if_neg hs, ih hnd.2]
        rw [List.erase_cons_tail]
        simp [h]

theorem liveDriverIds_append_fresh (ds : List Driver) (n : Nat) :
    liveDriverIds (ds ++ [⟨n, SSMState.Created⟩])
      = liveDriverIds ds ++ [n] := by
  simp [liveDriverIds, List.filter_append]

theorem driverLive_mem_live (ds : List Driver) (did : Nat)
    (h : driverLive ds did = true) : did ∈ liveDriverIds ds := by
  rw [driverLive, List.any_eq_true] at h
  obtain ⟨d, hd, hdd⟩ := h
  rw [Bool.and_eq_true, beq_iff_eq] at hdd
  refine List.mem_map.mpr ⟨d, List.mem_filter.mpr ⟨hd, hdd.2⟩, hdd.1⟩

theorem setRunning_map_did (ds : List Driver) (did : Nat) :
    (setRunning ds did).map Driver.did = ds.map Driver.did := by
  induction ds with
  | nil => rfl
  | cons d rest ih =>
    show (if d.did = did ∧ d.state ≠ SSMState.Ended then _ else d).did
        :: (setRunning rest did).map Driver.did
      = d.did :: rest.map Driver.did
    rw [ih]
    by_cases h : d.did = did ∧ d.state ≠ SSMState.Ended
    · rw [if_pos h]
    · rw [if_neg h]

theorem setEnded_map_did (ds : List Driver) (did : Nat) :
    (setEnded ds did).map Driver.did = ds.map Driver.did := by
  induction ds with
  | nil => rfl
  | cons d rest ih =>
    by_cases h : d.did = did <;> simp_all [setEnded]

theorem step_preserves_inv (st : SEPModel) (e : RegEvent) (hinv : SEPInv st) :
    SEPInv (st.step e) := by
  obtain ⟨hperm, hnd, hbound⟩ := hinv
  cases e with
  | startSession =>
    unfold SEPInv SEPModel.step
    refine ⟨?_, ?_, ?_⟩
    · rw [liveDriverIds_append_fresh]
      exact (hperm.cons st.nextDriver).trans
        (List.perm_append_singleton st.nextDriver _).symm
    · rw [List.map_append, List.map_cons, List.map_nil]
      refine List.Nodup.append hnd (List.nodup_singleton _) ?_
      intro x hx hy
      rw [List.mem_singleton] at hy
      subst hy
      obtain ⟨d, hd, hdd⟩ := List.mem_map.mp hx
      exact absurd hdd (Nat.ne_of_lt (hbound d hd))
    · intro d hd
      rw [List.mem_append, List.mem_singleton] at hd
      rcases hd with hd | hd
      · exact Nat.lt_succ_of_lt (hbound d hd)
      · subst hd
        exact Nat.lt_succ_self _
  | runNextStep did =>
    unfold SEPInv SEPModel.step
    refine ⟨?_, ?_, ?_⟩
    · rw [liveDriverIds_setRunning]
      exact hperm
    · rw [setRunning_map_did]
      exact hnd
    · intro d hd
      have hmm : d.did ∈ (setRunning st.drivers did).map Driver.did :=
        List.mem_map_of_mem _ hd
      rw [setRunning_map_did] at hmm
      obtain ⟨e0, he0, hee⟩ := List.mem_map.mp hmm
      exact hee ▸ hbound e0 he0
  | reachEnded did =>
    simp only [SEPModel.step]
    by_cases hl : driverLive st.drivers did = true
    · rw [if_pos hl]
      unfold SEPInv
      refine ⟨?_, ?_, ?_⟩
      · rw [liveDriverIds_setEnded st.drivers did hnd]
        exact hperm.erase did
      · rw [setEnded_map_did]
        exact hnd
      · intro d hd
        have hmm : d.did ∈ (setEnded st.drivers did).map Driver.did :=
          List.mem_map_of_mem _ hd
        rw [setEnded_map_did] at hmm
        obtain ⟨e0, he0, hee⟩ := List.mem_map.mp hmm
        exact hee ▸ hbound e0 he0
    · rw [if_neg hl]
      exact ⟨hperm, hnd, hbound⟩

theorem run_inv (events : List RegEvent) : SEPInv (SEPModel.run events) := by
  rw [SEPModel.run]
  induction events using List.reverseRecOn with
  | nil =>
    exact ⟨List.Perm.refl _, List.nodup_nil, fun d hd => absurd hd
      (List.not_mem_nil d)⟩
  | append_singleton rest e ih =>
    rw [List.foldl_append, List.foldl_cons, List.foldl_nil]
    exact step_preserves_inv _ e ih

/-- C4.  In every reachable registry state, `getNumberOfConnections()`
equals the number of drivers created by `startSession` that have not yet
reached `Ended`; a further `startSession` increases it by exactly one, and a
live driver's transition to `Ended` (its cleanup hook erasing its entry)
decreases it by exactly one. -/
theorem connection_count_invariant (events : List RegEvent) :
    (getNumberOfConnections (SEPModel.run events)
        = (liveDriverIds (SEPModel.run events).drivers).length)
      ∧ (getNumberOfConnections
          ((SEPModel.run events).step RegEvent.startSession)
        = getNumberOfConnections (SEPModel.run events) + 1)
      ∧ ∀ did, driverLive (SEPModel.run events).drivers did = true →
          getNumberOfConnections
              ((SEPModel.run events).step (RegEvent.reachEnded did)) + 1
            = getNumberOfConnections (SEPModel.run events) := by
  obtain ⟨hperm, hnd, hbound⟩ := run_inv events
  refine ⟨hperm.length_eq, rfl, ?_⟩
  intro did hl
  have hmem : did ∈ (SEPModel.run events).sessions :=
    (hperm.mem_iff).mpr (driverLive_mem_live _ did hl)
  show getNumberOfConnections (if driverLive (SEPModel.run events).drivers did
      then _ else _) + 1 = _
  rw [if_pos hl]
  show (cleanupHook (SEPModel.run events).sessions did).length + 1
    = (SEPModel.run events).sessions.length
  rw [cleanupHook, List.length_erase_of_mem hmem]
  have := List.length_pos.mpr (List.ne_nil_of_mem hmem)
  omega

/-- Witness for C4: after one `startSession`, the registry holds one
connection; the sole driver (number 0) is live, and its reaching `Ended`
returns the count to zero. -/
theorem connection_count_invariant_witness :
    (getNumberOfConnections (SEPModel.run [RegEvent.startSession])
        = (liveDriverIds (SEPModel.run [RegEvent.startSession]).drivers).length)
      ∧ driverLive (SEPModel.run [RegEvent.startSession]).drivers 0 = true
      ∧ getNumberOfConnections
            ((SEPModel.run [RegEvent.startSession]).step
              (RegEvent.reachEnded 0)) + 1
          = getNumberOfConnections (SEPModel.run [RegEvent.startSession]) :=
  ⟨(connection_count_invariant [RegEvent.startSession]).1,
   by decide,
   (connection_count_invariant [RegEvent.startSession]).2.2 0 (by decide)⟩

/-! ## C9: registry teardown -/

/-- Modelled from the spec: the destructor/shutdown teardown of
`ServiceEntryPointImpl` is not among the sampled source files (only the
three member functions in service_entry_point_impl.cpp are); per the spec,
the registry's own teardown must terminate any still-tracked driver, so it
calls `terminate()` on every driver still tracked in `_sessions` before the
registry's references are dropped. -/
def ServiceEntryPointImpl.teardown (sessions : List SSM) : List SSM :=
  sessions.map SSM.terminate

/-- C9.  Destroying the registry while drivers are still tracked leaves no
driver running: after the registry's own teardown, every still-tracked
driver has been terminated (state `Ended`), and every tracked driver was
accounted for (none dropped without termination). -/
theorem teardown_terminates_all (sessions : List SSM) (s : SSM)
    (hs : s ∈ ServiceEntryPointImpl.teardown sessions) :
    s.state = SSMState.Ended
      ∧ (ServiceEntryPointImpl.teardown sessions).length
          = sessions.length := by
  obtain ⟨t, ht, hts⟩ := List.mem_map.mp hs
  exact ⟨hts ▸ rfl, List.length_map sessions SSM.terminate⟩

/-- Witness for C9: tearing down a registry still tracking one running
driver yields that driver terminated. -/
theorem teardown_terminates_all_witness :
    ((⟨3, 0, SSMState.Ended⟩ : SSM) ∈ ServiceEntryPointImpl.teardown
        [⟨3, 0, SSMState.Running⟩])
      ∧ (⟨3, 0, SSMState.Ended⟩ : SSM).state = SSMState.Ended
      ∧ (ServiceEntryPointImpl.teardown
          [⟨3, 0, SSMState.Running⟩]).length = 1 :=
  ⟨by decide,
   (teardown_terminates_all [⟨3, 0, SSMState.Running⟩]
      ⟨3, 0, SSMState.Ended⟩ (by decide)).1,
   (teardown_terminates_all [⟨3, 0, SSMState.Running⟩]
      ⟨3, 0, SSMState.Ended⟩ (by decide)).2⟩

/-- Witness for C5 (amended): the two-element sequence is shorter than
`2 ^ 64`, and its sessions carry the distinct non-zero identifiers 1
and 2. -/
theorem session_ids_unique_nonzero_witness :
    ((constructAll sessionIdCounterInit
        [(someAddr, someAddr, none), (someAddr, someAddr, some 0)]).map
      Session.id).Pairwise (· < ·)
    ∧ ({ sid := 1, remoteAddr := someAddr, localAddr := someAddr,
         tl := none } : Session).id ≠ 0 :=
  ⟨(session_ids_unique_nonzero
      [(someAddr, someAddr, none), (someAddr, someAddr, some 0)]
      (by decide)).1,
   (session_ids_unique_nonzero
      [(someAddr, someAddr, none), (someAddr, someAddr, some 0)]
      (by decide)).2
     { sid := 1, remoteAddr := someAddr, localAddr := someAddr, tl := none }
     (by decide)⟩

end MongoTransport
